import Mathlib

/-!
Verification of the geodesic point-projection core of the repository
(`src/tado/world.py` and `src/tado/world2.py`) against its specification.

The two Python files each define module constants `a`, `f`, `r`, a projection
function `eval(phi0, theta0, b, distance)` and a unit converter
`convert(lat, lng, bear)`.  Both `eval`s branch on `abs(phi0) < pi/2`
(non-polar case) and `abs(phi0) == pi/2` (polar case); when `abs(phi0) > pi/2`
neither branch assigns `phi1`/`theta1`, so the trailing `return` raises
`UnboundLocalError` — we embed that as `none`.

Machine reals are modelled by `ℝ`; Python's float `%` (sign of the divisor)
is modelled by floor-based `fmod`, and `math.atan2 y x` by the argument of the
complex number `x + y·i` (both have range `(-π, π]`, agree on axes and at 0).
-/

noncomputable section

namespace tado

/-- Constant `a = 6378137.` (m, from WGS84), identical in both source files. -/
def a : ℝ := 6378137

/-- Constant `f = 1./298.257223563` (inverse flattening, WGS84), identical in both files. -/
def f : ℝ := 1 / 298.257223563

/-- Constant `r = a*(1. - f/3.)` (m), identical in both source files. -/
def r : ℝ := a * (1 - f / 3)

/-- Python float `%` for a positive modulus: `x % y = x - y*⌊x/y⌋`
(result has the sign of `y`). -/
def fmod (x y : ℝ) : ℝ := x - y * (⌊x / y⌋ : ℝ)

/-- Model of `math.atan2 y x` / `scipy.arctan2 y x`: the argument of `x + y·i`,
valued in `(-π, π]`, with `atan2 0 0 = 0`. -/
def atan2 (y x : ℝ) : ℝ := Complex.arg ⟨x, y⟩

/-- The longitude normalization shared by both files:
`((θ_deg + 540.) % 360.) - 180.`. -/
def normLon (x : ℝ) : ℝ := fmod (x + 540) 360 - 180

namespace world

/-- Shallow embedding of `world.eval` (src/tado/world.py, lines 8–26).
`none` models the `UnboundLocalError` raised at the `return` when neither
branch assigned `phi1`/`theta1`. -/
def eval (phi0 theta0 b distance : ℝ) : Option (ℝ × ℝ) :=
  let delta := distance / r
  let core : Option (ℝ × ℝ) :=
    if |phi0| < Real.pi / 2 then
      -- standard case when not at a pole
      let phi1 := Real.arcsin (Real.sin phi0 * Real.cos delta +
        Real.cos phi0 * Real.sin delta * Real.cos b)
      some (phi1, theta0 + atan2 (Real.sin b * Real.sin delta * Real.cos phi0)
        (Real.cos delta - Real.sin phi0 * Real.sin phi1))
    else if |phi0| = Real.pi / 2 then
      -- when at a pole
      some (phi0 + -1 * Real.sign phi0 * delta, b)
    else
      none
  core.map fun q =>
    (q.1 * 180 / Real.pi, fmod (q.2 * 180 / Real.pi + 540) 360 - 180)

/-- Shallow embedding of `world.convert` (src/tado/world.py, lines 29–34). -/
def convert (lat lng bear : ℝ) : ℝ × ℝ × ℝ :=
  (lat * (Real.pi / 180), lng * (Real.pi / 180), bear * (Real.pi / 180))

end world

namespace world2

/-- Shallow embedding of `world2.eval` (src/tado/world2.py, lines 9–27).
Note the source's non-polar branch applies `sin` — not `asin` — to the
destination-latitude expression, and its polar branch uses `abs(phi0)/phi0`
in place of `scipy.sign(phi0)`. -/
def eval (phi0 theta0 b distance : ℝ) : Option (ℝ × ℝ) :=
  let delta := distance / r
  let core : Option (ℝ × ℝ) :=
    if |phi0| < Real.pi / 2 then
      -- standard case when not at a pole
      let phi1 := Real.sin (Real.sin phi0 * Real.cos delta +
        Real.cos phi0 * Real.sin delta * Real.cos b)
      some (phi1, theta0 + atan2 (Real.sin b * Real.sin delta * Real.cos phi0)
        (Real.cos delta - Real.sin phi0 * Real.sin phi1))
    else if |phi0| = Real.pi / 2 then
      -- when at a pole
      some (phi0 + -1 * |phi0| / phi0 * delta, b)
    else
      none
  core.map fun q =>
    (q.1 * 180 / Real.pi, fmod (q.2 * 180 / Real.pi + 540) 360 - 180)

/-- Shallow embedding of `world2.convert` (src/tado/world2.py, lines 30–35). -/
def convert (lat lng bear : ℝ) : ℝ × ℝ × ℝ :=
  (lat * (Real.pi / 180), lng * (Real.pi / 180), bear * (Real.pi / 180))

end world2

/-! ### Basic facts about the constants and helpers -/

lemma r_pos : 0 < r := by
  have : (298.257223563 : ℝ) > 0 := by norm_num
  rw [r, a, f]
  norm_num

lemma r_ne_zero : r ≠ 0 := ne_of_gt r_pos

lemma fmod_eq_of_bounds (x : ℝ) (k : ℤ) (h1 : (k : ℝ) * 360 ≤ x)
    (h2 : x < (k : ℝ) * 360 + 360) : fmod x 360 = x - (k : ℝ) * 360 := by
  have hk : ⌊x / 360⌋ = k := by
    rw [Int.floor_eq_iff]
    constructor
    · rw [le_div_iff₀ (by norm_num : (0:ℝ) < 360)]
      linarith
    · rw [div_lt_iff₀ (by norm_num : (0:ℝ) < 360)]
      linarith
  rw [fmod, hk]
  ring

lemma fmod_nonneg_lt (x : ℝ) : 0 ≤ fmod x 360 ∧ fmod x 360 < 360 := by
  have h1 : (⌊x / 360⌋ : ℝ) ≤ x / 360 := Int.floor_le _
  have h2 : x / 360 < (⌊x / 360⌋ : ℝ) + 1 := Int.lt_floor_add_one _
  rw [fmod]
  constructor
  · nlinarith
  · nlinarith

lemma normLon_mem (x : ℝ) : -180 ≤ normLon x ∧ normLon x < 180 := by
  obtain ⟨h1, h2⟩ := fmod_nonneg_lt (x + 540)
  rw [normLon]
  constructor <;> linarith

lemma normLon_fixed (x : ℝ) (h1 : -180 ≤ x) (h2 : x < 180) : normLon x = x := by
  rw [normLon, fmod_eq_of_bounds (x + 540) 1 (by push_cast; linarith) (by push_cast; linarith)]
  ring

lemma normLon_idem (x : ℝ) : normLon (normLon x) = normLon x :=
  normLon_fixed _ (normLon_mem x).1 (normLon_mem x).2

lemma atan2_zero_of_nonneg (x : ℝ) (hx : 0 ≤ x) : atan2 0 x = 0 := by
  have : (⟨x, 0⟩ : ℂ) = (x : ℂ) := Complex.ext rfl rfl
  rw [atan2, this, Complex.arg_ofReal_of_nonneg hx]

/-! ### Branch-unfolding lemmas for the two `eval`s -/

lemma world_eval_nonpolar (phi0 theta0 b distance : ℝ) (h : |phi0| < Real.pi / 2) :
    world.eval phi0 theta0 b distance =
      some (Real.arcsin (Real.sin phi0 * Real.cos (distance / r) +
          Real.cos phi0 * Real.sin (distance / r) * Real.cos b) * 180 / Real.pi,
        normLon ((theta0 + atan2
          (Real.sin b * Real.sin (distance / r) * Real.cos phi0)
          (Real.cos (distance / r) - Real.sin phi0 * Real.sin (Real.arcsin
            (Real.sin phi0 * Real.cos (distance / r) +
              Real.cos phi0 * Real.sin (distance / r) * Real.cos b)))) * 180 / Real.pi)) := by
  unfold world.eval
  dsimp only
  rw [if_pos h]
  rfl

lemma world_eval_polar (phi0 theta0 b distance : ℝ) (h : |phi0| = Real.pi / 2) :
    world.eval phi0 theta0 b distance =
      some ((phi0 + -1 * Real.sign phi0 * (distance / r)) * 180 / Real.pi,
        normLon (b * 180 / Real.pi)) := by
  unfold world.eval
  dsimp only
  rw [if_neg (by rw [h]; exact lt_irrefl _), if_pos h]
  rfl

lemma world_eval_out_of_range (phi0 theta0 b distance : ℝ) (h : Real.pi / 2 < |phi0|) :
    world.eval phi0 theta0 b distance = none := by
  unfold world.eval
  dsimp only
  rw [if_neg (not_lt.mpr h.le), if_neg (ne_of_gt h)]
  rfl

lemma world2_eval_nonpolar (phi0 theta0 b distance : ℝ) (h : |phi0| < Real.pi / 2) :
    world2.eval phi0 theta0 b distance =
      some (Real.sin (Real.sin phi0 * Real.cos (distance / r) +
          Real.cos phi0 * Real.sin (distance / r) * Real.cos b) * 180 / Real.pi,
        normLon ((theta0 + atan2
          (Real.sin b * Real.sin (distance / r) * Real.cos phi0)
          (Real.cos (distance / r) - Real.sin phi0 * Real.sin (Real.sin
            (Real.sin phi0 * Real.cos (distance / r) +
              Real.cos phi0 * Real.sin (distance / r) * Real.cos b)))) * 180 / Real.pi)) := by
  unfold world2.eval
  dsimp only
  rw [if_pos h]
  rfl

lemma world2_eval_polar (phi0 theta0 b distance : ℝ) (h : |phi0| = Real.pi / 2) :
    world2.eval phi0 theta0 b distance =
      some ((phi0 + -1 * |phi0| / phi0 * (distance / r)) * 180 / Real.pi,
        normLon (b * 180 / Real.pi)) := by
  unfold world2.eval
  dsimp only
  rw [if_neg (by rw [h]; exact lt_irrefl _), if_pos h]
  rfl

lemma world2_eval_out_of_range (phi0 theta0 b distance : ℝ) (h : Real.pi / 2 < |phi0|) :
    world2.eval phi0 theta0 b distance = none := by
  unfold world2.eval
  dsimp only
  rw [if_neg (not_lt.mpr h.le), if_neg (ne_of_gt h)]
  rfl

/-! ### Arithmetic helpers used in the concrete evaluations -/

lemma pi_half_abs : |Real.pi / 2| = Real.pi / 2 := abs_of_pos (by positivity)

lemma pi_half_deg : Real.pi / 2 * 180 / Real.pi = 90 := by
  field_simp
  ring

lemma pi_deg : Real.pi * 180 / Real.pi = 180 := by
  rw [mul_comm, mul_div_assoc, div_self Real.pi_ne_zero, mul_one]

lemma normLon_zero : normLon 0 = 0 := by
  rw [normLon_fixed 0 (by norm_num) (by norm_num)]

lemma normLon_180 : normLon 180 = -180 := by
  rw [normLon, fmod_eq_of_bounds (180 + 540) 2 (by norm_num) (by norm_num)]
  norm_num

lemma normLon_270 : normLon 270 = -90 := by
  rw [normLon, fmod_eq_of_bounds (270 + 540) 2 (by norm_num) (by norm_num)]
  norm_num

/-- Distance `0` through the non-polar branch of `world.eval`: the input point
comes back unchanged (up to degree conversion and longitude normalization). -/
lemma world_eval_zero_dist (phi0 theta0 b : ℝ) (h : |phi0| < Real.pi / 2) :
    world.eval phi0 theta0 b 0 =
      some (phi0 * 180 / Real.pi, normLon (theta0 * 180 / Real.pi)) := by
  rw [world_eval_nonpolar _ _ _ _ h]
  obtain ⟨hl, hu⟩ := abs_lt.mp h
  have harg : Real.sin phi0 * Real.cos (0 / r) +
      Real.cos phi0 * Real.sin (0 / r) * Real.cos b = Real.sin phi0 := by
    rw [zero_div, Real.cos_zero, Real.sin_zero]
    ring
  rw [harg, Real.arcsin_sin (by linarith) (by linarith)]
  have hnum : Real.sin b * Real.sin (0 / r) * Real.cos phi0 = 0 := by
    rw [zero_div, Real.sin_zero]
    ring
  have hden : Real.cos (0 / r) - Real.sin phi0 * Real.sin phi0 =
      1 - Real.sin phi0 ^ 2 := by
    rw [zero_div, Real.cos_zero]
    ring
  rw [hnum, hden, atan2_zero_of_nonneg _ (by nlinarith [Real.sin_sq_le_one phi0]),
    add_zero]

/-! ### Claim theorems -/

/-- C7: `convert` multiplies each of the three components by `π/180` exactly,
in both files; it is a total pure function. -/
theorem c7_convert_exact (lat lng bear : ℝ) :
    world.convert lat lng bear =
      (lat * Real.pi / 180, lng * Real.pi / 180, bear * Real.pi / 180) ∧
    world2.convert lat lng bear =
      (lat * Real.pi / 180, lng * Real.pi / 180, bear * Real.pi / 180) := by
  constructor <;>
    simp [world.convert, world2.convert, mul_div_assoc]

/-- C9: on the polar branch (`|φ0| = π/2`) the two variants agree exactly:
`scipy.sign(φ0)` equals `abs(φ0)/φ0` there because `φ0 ≠ 0`, and both set
`θ1 = b`. -/
theorem c9_polar_branches_agree (phi0 theta0 b distance : ℝ)
    (h : |phi0| = Real.pi / 2) :
    world.eval phi0 theta0 b distance = world2.eval phi0 theta0 b distance := by
  rw [world_eval_polar _ _ _ _ h, world2_eval_polar _ _ _ _ h]
  have hne : phi0 ≠ 0 := by
    intro h0
    rw [h0, abs_zero] at h
    have := Real.pi_pos
    linarith
  have hsign : Real.sign phi0 = |phi0| / phi0 := by
    rcases lt_or_gt_of_ne hne with hlt | hgt
    · rw [Real.sign_of_neg hlt, abs_of_neg hlt, neg_div, div_self hne]
    · rw [Real.sign_of_pos hgt, abs_of_pos hgt, div_self hne]
  have : phi0 + -1 * Real.sign phi0 * (distance / r) =
      phi0 + -1 * |phi0| / phi0 * (distance / r) := by
    rw [hsign]
    ring
  rw [this]

/-- Closed-point check for C9 at the north pole. -/
theorem c9_polar_branches_agree_witness :
    world.eval (Real.pi / 2) 0 0 0 = world2.eval (Real.pi / 2) 0 0 0 :=
  c9_polar_branches_agree (Real.pi / 2) 0 0 0 pi_half_abs

/-- C5 (amended): both `eval`s return a value for every input with
`|φ0| ≤ π/2`; the claim's extension to `|φ0| > π/2` is refuted by
`c5_out_of_range_counterexample`. -/
theorem c5_total_on_valid_latitudes (phi0 theta0 b distance : ℝ)
    (h : |phi0| ≤ Real.pi / 2) :
    (world.eval phi0 theta0 b distance).isSome = true ∧
    (world2.eval phi0 theta0 b distance).isSome = true := by
  rcases lt_or_eq_of_le h with hlt | heq
  · rw [world_eval_nonpolar _ _ _ _ hlt, world2_eval_nonpolar _ _ _ _ hlt]
    exact ⟨rfl, rfl⟩
  · rw [world_eval_polar _ _ _ _ heq, world2_eval_polar _ _ _ _ heq]
    exact ⟨rfl, rfl⟩

/-- Closed-point check for C5 at the origin. -/
theorem c5_total_on_valid_latitudes_witness :
    (world.eval 0 0 0 0).isSome = true ∧ (world2.eval 0 0 0 0).isSome = true :=
  c5_total_on_valid_latitudes 0 0 0 0 (by rw [abs_zero]; positivity)

/-- C5 counterexample: at `φ0 = 2` (finite, `|φ0| > π/2`) neither branch fires
and the Python `return` raises `UnboundLocalError`; embedded as `none`. -/
theorem c5_out_of_range_counterexample :
    world.eval 2 0 0 0 = none ∧ world2.eval 2 0 0 0 = none := by
  have h : Real.pi / 2 < |(2 : ℝ)| := by
    rw [abs_of_pos (by norm_num : (0:ℝ) < 2)]
    have := Real.pi_lt_four
    linarith
  exact ⟨world_eval_out_of_range _ _ _ _ h, world2_eval_out_of_range _ _ _ _ h⟩

/-- Whenever `world.eval` returns, its longitude component is the
normalization of some raw value. -/
lemma world_eval_lon_normalized {phi0 theta0 b distance : ℝ} {p : ℝ × ℝ}
    (h : world.eval phi0 theta0 b distance = some p) : ∃ x, p.2 = normLon x := by
  rcases lt_trichotomy |phi0| (Real.pi / 2) with h1 | h1 | h1
  · rw [world_eval_nonpolar _ _ _ _ h1] at h
    cases Option.some.inj h
    exact ⟨_, rfl⟩
  · rw [world_eval_polar _ _ _ _ h1] at h
    cases Option.some.inj h
    exact ⟨_, rfl⟩
  · rw [world_eval_out_of_range _ _ _ _ h1] at h
    exact absurd h (by simp)

/-- Whenever `world2.eval` returns, its longitude component is the
normalization of some raw value. -/
lemma world2_eval_lon_normalized {phi0 theta0 b distance : ℝ} {p : ℝ × ℝ}
    (h : world2.eval phi0 theta0 b distance = some p) : ∃ x, p.2 = normLon x := by
  rcases lt_trichotomy |phi0| (Real.pi / 2) with h1 | h1 | h1
  · rw [world2_eval_nonpolar _ _ _ _ h1] at h
    cases Option.some.inj h
    exact ⟨_, rfl⟩
  · rw [world2_eval_polar _ _ _ _ h1] at h
    cases Option.some.inj h
    exact ⟨_, rfl⟩
  · rw [world2_eval_out_of_range _ _ _ _ h1] at h
    exact absurd h (by simp)

/-- Concrete evaluation: `world.eval 0 0 0 0 = some (0, 0)`. -/
lemma world_eval_at_origin : world.eval 0 0 0 0 = some (0, 0) := by
  rw [world_eval_zero_dist 0 0 0 (by rw [abs_zero]; positivity)]
  rw [zero_mul, zero_div, normLon_zero]

/-- Concrete evaluation of `world.eval` starting at the north pole with
bearing `π` (i.e. 180°) and distance 0: the raw longitude is exactly 180°,
normalized to `-180`. -/
lemma world_eval_pole_pi : world.eval (Real.pi / 2) 0 Real.pi 0 = some (90, -180) := by
  rw [world_eval_polar _ _ _ _ pi_half_abs]
  have hlat : (Real.pi / 2 + -1 * Real.sign (Real.pi / 2) * (0 / r)) * 180 / Real.pi
      = 90 := by
    rw [Real.sign_of_pos (by positivity), zero_div]
    have : Real.pi / 2 + -1 * 1 * 0 = Real.pi / 2 := by ring
    rw [this, pi_half_deg]
  rw [hlat, pi_deg, normLon_180]

/-- Concrete evaluation of `world2.eval` starting at the north pole with
bearing `π` and distance 0. -/
lemma world2_eval_pole_pi : world2.eval (Real.pi / 2) 0 Real.pi 0 = some (90, -180) := by
  rw [world2_eval_polar _ _ _ _ pi_half_abs]
  have hlat : (Real.pi / 2 + -1 * |Real.pi / 2| / (Real.pi / 2) * (0 / r)) * 180 / Real.pi
      = 90 := by
    rw [pi_half_abs, zero_div]
    have : Real.pi / 2 + -1 * (Real.pi / 2) / (Real.pi / 2) * 0 = Real.pi / 2 := by ring
    rw [this, pi_half_deg]
  rw [hlat, pi_deg, normLon_180]

/-- C2 (amended): with `distance = 0` and a non-polar start (`|φ0| < π/2`),
`world.eval` returns exactly the input point, in degrees, with the longitude
normalized. -/
theorem c2_identity_at_zero_distance (phi0 theta0 b : ℝ) (h : |phi0| < Real.pi / 2) :
    world.eval phi0 theta0 b 0 =
      some (phi0 * 180 / Real.pi, normLon (theta0 * 180 / Real.pi)) :=
  world_eval_zero_dist phi0 theta0 b h

/-- Closed-point check for C2 at the origin. -/
theorem c2_identity_at_zero_distance_witness :
    world.eval 0 0 0 0 = some (0 * 180 / Real.pi, normLon (0 * 180 / Real.pi)) :=
  c2_identity_at_zero_distance 0 0 0 (by rw [abs_zero]; positivity)

/-- C2 counterexample: at the (valid, `|φ0| = π/2`) north pole with `θ0 = 0`,
bearing `π/2` and distance 0, `world.eval` returns longitude 90°, not the
input longitude 0°. -/
theorem c2_pole_identity_counterexample :
    world.eval (Real.pi / 2) 0 (Real.pi / 2) 0 = some (90, 90) ∧ (90 : ℝ) ≠ 0 := by
  refine ⟨?_, by norm_num⟩
  rw [world_eval_polar _ _ _ _ pi_half_abs]
  have hlat : (Real.pi / 2 + -1 * Real.sign (Real.pi / 2) * (0 / r)) * 180 / Real.pi
      = 90 := by
    rw [Real.sign_of_pos (by positivity), zero_div]
    have : Real.pi / 2 + -1 * 1 * 0 = Real.pi / 2 := by ring
    rw [this, pi_half_deg]
  rw [hlat, pi_half_deg, normLon_fixed 90 (by norm_num) (by norm_num)]

/-- C3 (amended): every longitude either `eval` returns lies in `[-180, 180)`
(not in `(-180, 180]` as claimed: `-180` is attained and `180` never is). -/
theorem c3_lon_in_half_open_range (phi0 theta0 b distance : ℝ) (p : ℝ × ℝ)
    (h : world.eval phi0 theta0 b distance = some p ∨
      world2.eval phi0 theta0 b distance = some p) :
    -180 ≤ p.2 ∧ p.2 < 180 := by
  rcases h with h | h
  · obtain ⟨x, hx⟩ := world_eval_lon_normalized h
    rw [hx]
    exact normLon_mem x
  · obtain ⟨x, hx⟩ := world2_eval_lon_normalized h
    rw [hx]
    exact normLon_mem x

/-- Closed-point check for C3 at the origin. -/
theorem c3_lon_in_half_open_range_witness :
    -180 ≤ ((0 : ℝ), (0 : ℝ)).2 ∧ ((0 : ℝ), (0 : ℝ)).2 < 180 :=
  c3_lon_in_half_open_range 0 0 0 0 (0, 0) (Or.inl world_eval_at_origin)

/-- C3 counterexample: starting at the north pole with bearing `π` (raw
longitude exactly 180°) the returned longitude is `-180`, which is not
strictly greater than `-180`. -/
theorem c3_lon_counterexample :
    world.eval (Real.pi / 2) 0 Real.pi 0 = some (90, -180) ∧
    ¬(-180 < (-180 : ℝ)) :=
  ⟨world_eval_pole_pi, lt_irrefl _⟩

/-- C10: the returned longitude always lies in `[-180, 180)` — in particular
it is never `180` — and `-180` is attained (raw longitude exactly 180°). -/
theorem c10_lon_invariant :
    (∀ phi0 theta0 b distance : ℝ, ∀ p : ℝ × ℝ,
      (world.eval phi0 theta0 b distance = some p ∨
        world2.eval phi0 theta0 b distance = some p) →
      -180 ≤ p.2 ∧ p.2 < 180 ∧ p.2 ≠ 180) ∧
    world2.eval (Real.pi / 2) 0 Real.pi 0 = some (90, -180) := by
  constructor
  · intro phi0 theta0 b distance p h
    have hmem : -180 ≤ p.2 ∧ p.2 < 180 := by
      rcases h with h | h
      · obtain ⟨x, hx⟩ := world_eval_lon_normalized h
        rw [hx]
        exact normLon_mem x
      · obtain ⟨x, hx⟩ := world2_eval_lon_normalized h
        rw [hx]
        exact normLon_mem x
    exact ⟨hmem.1, hmem.2, ne_of_lt hmem.2⟩
  · exact world2_eval_pole_pi

/-- Closed-point check for C10 at the attained boundary value. -/
theorem c10_lon_invariant_witness :
    -180 ≤ ((90 : ℝ), (-180 : ℝ)).2 ∧ ((90 : ℝ), (-180 : ℝ)).2 < 180 ∧
      ((90 : ℝ), (-180 : ℝ)).2 ≠ 180 :=
  c10_lon_invariant.1 (Real.pi / 2) 0 Real.pi 0 (90, -180)
    (Or.inr c10_lon_invariant.2)

/-- C4 (amended): projecting from the north pole with bearing `b` degrees
(converted to radians as in `convert`) and distance `d ≥ 0` yields latitude
`90 − (d/r)·180/π` and longitude `((b+540) mod 360) − 180` — i.e. `b`
normalized into `[-180, 180)`, which is `b` itself only for `b ∈ {0, 90}`. -/
theorem c4_pole_projection (b d : ℝ) (_hd : 0 ≤ d)
    (_hb : b = 0 ∨ b = 90 ∨ b = 180 ∨ b = 270) :
    world.eval (Real.pi / 2) 0 (b * (Real.pi / 180)) d =
      some (90 - d / r * 180 / Real.pi, normLon b) ∧
    world2.eval (Real.pi / 2) 0 (b * (Real.pi / 180)) d =
      some (90 - d / r * 180 / Real.pi, normLon b) := by
  have hbdeg : b * (Real.pi / 180) * 180 / Real.pi = b := by
    field_simp
  constructor
  · rw [world_eval_polar _ _ _ _ pi_half_abs]
    have hlat : (Real.pi / 2 + -1 * Real.sign (Real.pi / 2) * (d / r)) * 180 / Real.pi
        = 90 - d / r * 180 / Real.pi := by
      rw [Real.sign_of_pos (by positivity)]
      have expand : (Real.pi / 2 + -1 * 1 * (d / r)) * 180 / Real.pi
          = Real.pi / 2 * 180 / Real.pi - d / r * 180 / Real.pi := by ring
      rw [expand, pi_half_deg]
    rw [hlat, hbdeg]
  · rw [world2_eval_polar _ _ _ _ pi_half_abs]
    have hcancel : -1 * (Real.pi / 2) / (Real.pi / 2) = -1 := by
      rw [mul_div_assoc, div_self (by positivity : Real.pi / 2 ≠ 0), mul_one]
    have hlat : (Real.pi / 2 + -1 * |Real.pi / 2| / (Real.pi / 2) * (d / r)) * 180 / Real.pi
        = 90 - d / r * 180 / Real.pi := by
      rw [pi_half_abs, hcancel]
      have expand : (Real.pi / 2 + -1 * (d / r)) * 180 / Real.pi
          = Real.pi / 2 * 180 / Real.pi - d / r * 180 / Real.pi := by ring
      rw [expand, pi_half_deg]
    rw [hlat, hbdeg]

/-- Closed-point check for C4 with bearing 0 and distance 0. -/
theorem c4_pole_projection_witness :
    world.eval (Real.pi / 2) 0 (0 * (Real.pi / 180)) 0 =
      some (90 - 0 / r * 180 / Real.pi, normLon 0) ∧
    world2.eval (Real.pi / 2) 0 (0 * (Real.pi / 180)) 0 =
      some (90 - 0 / r * 180 / Real.pi, normLon 0) :=
  c4_pole_projection 0 0 le_rfl (Or.inl rfl)

/-- C4 counterexample: with bearing 270° (and distance 0) the returned
longitude is `-90`, not `270` as the claim demands. -/
theorem c4_bearing270_counterexample :
    world.eval (Real.pi / 2) 0 (270 * (Real.pi / 180)) 0 = some (90, -90) ∧
    (-90 : ℝ) ≠ 270 := by
  refine ⟨?_, by norm_num⟩
  rw [world_eval_polar _ _ _ _ pi_half_abs]
  have hlat : (Real.pi / 2 + -1 * Real.sign (Real.pi / 2) * (0 / r)) * 180 / Real.pi
      = 90 := by
    rw [Real.sign_of_pos (by positivity), zero_div]
    have : Real.pi / 2 + -1 * 1 * 0 = Real.pi / 2 := by ring
    rw [this, pi_half_deg]
  have hlon : (270 : ℝ) * (Real.pi / 180) * 180 / Real.pi = 270 := by
    field_simp
  rw [hlat, hlon, normLon_270]

/-- C1: `world.eval` computes the destination latitude with `asin` as the
claim states, but `world2.eval` applies `sin` to the same expression
(src/tado/world2.py line 14, a sin-for-asin slip): at
`(φ0, θ0, b, d) = (1, 0, 0, 0)` the former returns latitude `1·180/π` while
the latter returns `sin(sin 1)·180/π`, and the two differ. -/
theorem c1_world2_applies_sin_not_asin :
    world.eval 1 0 0 0 = some (1 * 180 / Real.pi, 0) ∧
    world2.eval 1 0 0 0 = some (Real.sin (Real.sin 1) * 180 / Real.pi, 0) ∧
    Real.sin (Real.sin 1) * 180 / Real.pi ≠ 1 * 180 / Real.pi := by
  have h1 : |(1 : ℝ)| < Real.pi / 2 := by
    rw [abs_one]
    have := Real.pi_gt_three
    linarith
  have hs1pos : 0 < Real.sin 1 :=
    Real.sin_pos_of_pos_of_lt_pi one_pos (by have := Real.pi_gt_three; linarith)
  have hs1lt : Real.sin 1 < 1 := Real.sin_lt one_pos
  have hss1lt : Real.sin (Real.sin 1) < 1 := lt_trans (Real.sin_lt hs1pos) hs1lt
  refine ⟨?_, ?_, ?_⟩
  · rw [world_eval_zero_dist 1 0 0 h1, zero_mul, zero_div, normLon_zero]
  · rw [world2_eval_nonpolar _ _ _ _ h1]
    have harg : Real.sin 1 * Real.cos (0 / r) +
        Real.cos 1 * Real.sin (0 / r) * Real.cos 0 = Real.sin 1 := by
      rw [zero_div, Real.cos_zero, Real.sin_zero]
      ring
    rw [harg]
    have hnum : Real.sin 0 * Real.sin (0 / r) * Real.cos 1 = 0 := by
      rw [Real.sin_zero]
      ring
    have hnonneg : 0 ≤ Real.cos (0 / r) -
        Real.sin 1 * Real.sin (Real.sin (Real.sin 1)) := by
      rw [zero_div, Real.cos_zero]
      nlinarith [Real.sin_le_one 1, Real.neg_one_le_sin 1,
        Real.sin_le_one (Real.sin (Real.sin 1)),
        Real.neg_one_le_sin (Real.sin (Real.sin 1))]
    rw [hnum, atan2_zero_of_nonneg _ hnonneg, add_zero, zero_mul, zero_div,
      normLon_zero]
  · intro heq
    have h180 : 0 < 180 / Real.pi := by positivity
    have : Real.sin (Real.sin 1) * 180 / Real.pi < 1 * 180 / Real.pi := by
      rw [mul_div_assoc, mul_div_assoc]
      exact mul_lt_mul_of_pos_right hss1lt h180
    exact absurd heq (ne_of_lt this)

/-- Positivity of the cosine on the open non-polar latitude interval. -/
lemma cos_pos_of_nonpolar {x : ℝ} (h1 : -(Real.pi / 2) < x) (h2 : x < Real.pi / 2) :
    0 < Real.cos x :=
  Real.cos_pos_of_mem_Ioo ⟨h1, h2⟩

/-- C8 (amended): for due-north travel (`b = 0`) that stays strictly short of
the pole (`-π/2 < φ0`, `0 ≤ d`, `φ0 + d/r < π/2`), projecting forward, then
again from the returned point (reconverted to radians) with the reversed
bearing `π`, returns exactly the original point (longitude normalized). -/
theorem c8_meridian_roundtrip (phi0 theta0 d : ℝ)
    (h1 : -(Real.pi / 2) < phi0) (h2 : 0 ≤ d) (h3 : phi0 + d / r < Real.pi / 2) :
    ∃ q, world.eval phi0 theta0 0 d = some q ∧
      world.eval (q.1 * (Real.pi / 180)) (q.2 * (Real.pi / 180)) (0 + Real.pi) d =
        some (phi0 * 180 / Real.pi, normLon (theta0 * 180 / Real.pi)) := by
  have hδ : 0 ≤ d / r := div_nonneg h2 r_pos.le
  have hup : phi0 < Real.pi / 2 := lt_of_le_of_lt (le_add_of_nonneg_right hδ) h3
  have hlo1 : -(Real.pi / 2) < phi0 + d / r := lt_add_of_lt_of_nonneg h1 hδ
  have habs : |phi0| < Real.pi / 2 := abs_lt.mpr ⟨h1, hup⟩
  have habs1 : |phi0 + d / r| < Real.pi / 2 := abs_lt.mpr ⟨hlo1, h3⟩
  have hcos0 : 0 < Real.cos phi0 := cos_pos_of_nonpolar h1 hup
  have hcos1 : 0 < Real.cos (phi0 + d / r) := cos_pos_of_nonpolar hlo1 h3
  have hden : Real.cos (d / r) - Real.sin phi0 * Real.sin (phi0 + d / r) =
      Real.cos phi0 * Real.cos (phi0 + d / r) := by
    have hc : Real.cos (phi0 + d / r - phi0) =
        Real.cos (phi0 + d / r) * Real.cos phi0 +
          Real.sin (phi0 + d / r) * Real.sin phi0 := Real.cos_sub _ _
    rw [add_sub_cancel_left] at hc
    rw [hc]
    ring
  refine ⟨((phi0 + d / r) * 180 / Real.pi, normLon (theta0 * 180 / Real.pi)), ?_, ?_⟩
  · rw [world_eval_nonpolar _ _ _ _ habs]
    have harg : Real.sin phi0 * Real.cos (d / r) +
        Real.cos phi0 * Real.sin (d / r) * Real.cos 0 = Real.sin (phi0 + d / r) := by
      rw [Real.cos_zero, Real.sin_add]
      ring
    rw [harg, Real.arcsin_sin hlo1.le h3.le]
    have hnum : Real.sin 0 * Real.sin (d / r) * Real.cos phi0 = 0 := by
      rw [Real.sin_zero]
      ring
    rw [hnum, hden, atan2_zero_of_nonneg _ (mul_nonneg hcos0.le hcos1.le), add_zero]
  · have hlat2 : (phi0 + d / r) * 180 / Real.pi * (Real.pi / 180) = phi0 + d / r := by
      field_simp
    have hlng2 : normLon (theta0 * 180 / Real.pi) * (Real.pi / 180) * 180 / Real.pi =
        normLon (theta0 * 180 / Real.pi) := by
      field_simp
    rw [hlat2, zero_add, world_eval_nonpolar _ _ _ _ habs1]
    have harg2 : Real.sin (phi0 + d / r) * Real.cos (d / r) +
        Real.cos (phi0 + d / r) * Real.sin (d / r) * Real.cos Real.pi = Real.sin phi0 := by
      rw [Real.cos_pi]
      have hsub : Real.sin phi0 = Real.sin (phi0 + d / r - d / r) := by
        rw [add_sub_cancel_right]
      rw [hsub, Real.sin_sub]
      ring
    rw [harg2, Real.arcsin_sin h1.le hup.le]
    have hnum2 : Real.sin Real.pi * Real.sin (d / r) * Real.cos (phi0 + d / r) = 0 := by
      rw [Real.sin_pi]
      ring
    have hden2 : Real.cos (d / r) - Real.sin (phi0 + d / r) * Real.sin phi0 =
        Real.cos phi0 * Real.cos (phi0 + d / r) := by
      rw [mul_comm (Real.sin (phi0 + d / r))]
      exact hden
    rw [hnum2, hden2, atan2_zero_of_nonneg _ (mul_nonneg hcos0.le hcos1.le), add_zero,
      hlng2, normLon_idem]

/-- Closed-point check for C8 at the origin with distance 0. -/
theorem c8_meridian_roundtrip_witness :
    ∃ q, world.eval 0 0 0 0 = some q ∧
      world.eval (q.1 * (Real.pi / 180)) (q.2 * (Real.pi / 180)) (0 + Real.pi) 0 =
        some (0 * 180 / Real.pi, normLon (0 * 180 / Real.pi)) :=
  c8_meridian_roundtrip 0 0 0 (neg_lt_zero.mpr (by positivity)) le_rfl
    (by rw [zero_div, add_zero]; positivity)

/-- C8 counterexample: from the equator, due north by a quarter
circumference (`d = r·π/2`), the destination is the north pole; projecting
back from it with bearing `0 + π` (i.e. `(b+180) mod 360`) takes the polar
branch and returns `(0, -180)`, not the origin `(0, 0)`. -/
theorem c8_roundtrip_counterexample :
    world.eval 0 0 0 (r * (Real.pi / 2)) = some (90, 0) ∧
    world.eval (90 * (Real.pi / 180)) (0 * (Real.pi / 180)) (0 + Real.pi)
      (r * (Real.pi / 2)) = some (0, -180) ∧
    (-180 : ℝ) ≠ normLon (0 * 180 / Real.pi) := by
  have hδ : r * (Real.pi / 2) / r = Real.pi / 2 := by
    rw [mul_comm, mul_div_assoc, div_self r_ne_zero, mul_one]
  refine ⟨?_, ?_, ?_⟩
  · rw [world_eval_nonpolar _ _ _ _ (by rw [abs_zero]; positivity), hδ]
    have harg : Real.sin 0 * Real.cos (Real.pi / 2) +
        Real.cos 0 * Real.sin (Real.pi / 2) * Real.cos 0 = 1 := by
      rw [Real.sin_zero, Real.cos_zero, Real.sin_pi_div_two]
      ring
    rw [harg, Real.arcsin_one]
    have hnum : Real.sin 0 * Real.sin (Real.pi / 2) * Real.cos 0 = 0 := by
      rw [Real.sin_zero]
      ring
    have hden : Real.cos (Real.pi / 2) - Real.sin 0 * Real.sin (Real.pi / 2) = 0 := by
      rw [Real.cos_pi_div_two, Real.sin_zero]
      ring
    rw [hnum, hden, atan2_zero_of_nonneg 0 le_rfl, add_zero, pi_half_deg,
      zero_mul, zero_div, normLon_zero]
  · have hlat : (90 : ℝ) * (Real.pi / 180) = Real.pi / 2 := by ring
    rw [hlat, world_eval_polar _ _ _ _ pi_half_abs, hδ]
    have hlat2 : (Real.pi / 2 + -1 * Real.sign (Real.pi / 2) * (Real.pi / 2)) * 180 /
        Real.pi = 0 := by
      rw [Real.sign_of_pos (by positivity)]
      have : Real.pi / 2 + -1 * 1 * (Real.pi / 2) = 0 := by ring
      rw [this, zero_mul, zero_div]
    rw [hlat2, zero_add, pi_deg, normLon_180]
  · rw [zero_mul, zero_div, normLon_zero]
    norm_num

end tado

end
